import Mathlib

/-!
# Monitoring-job resource of the NS1 Terraform provider

A shallow embedding of `ns1/resource_monitoringjob.go`:

* `monitoringJobToResourceData` (the spec's `ToState`),
* `resourceDataToMonitoringJob` (the spec's `ToDomain`),
* `MonitoringJobCreate`, `MonitoringJobRead`, `MonitoringJobUpdate`, `MonitoringJobDelete`.

Go values are embedded as follows.

* `string` is `String`; Go compares strings bytewise, and UTF-8 keeps the order of code
  points, so on text the order of `sort.Strings` is the lexicographic order of `String`.
* `int` is `Int`; the only place where the width matters is `strconv.Atoi`, which is embedded
  with the range check of a 64-bit platform.
* `interface{}` is the tagged type `Dyn`.
* `map[string]T` is `GoMap T`, a list of entries, ranged over in list order; a Go map has
  no repeated key, which is the predicate `GoMap.WF`.
* A function that can panic returns `Except String _`, the error being the panic.
-/

namespace NS1

/-! ## Go maps -/

/-- A Go `map[string]V`: its entries, in the order a `range` loop visits them. -/
abbrev GoMap (V : Type) := List (String × V)

namespace GoMap

/-- The keys of the map, in iteration order. -/
def keys {V : Type} (m : GoMap V) : List String := m.map Prod.fst

/-- Well-formedness of a Go map: no key occurs twice. -/
def WF {V : Type} (m : GoMap V) : Prop := m.keys.Nodup

instance {V : Type} (m : GoMap V) : Decidable m.WF :=
  inferInstanceAs (Decidable (List.Nodup _))

/-- The read `m[k]` in its two-valued form: `none` when the key is absent. -/
def get {V : Type} : GoMap V → String → Option V
  | [], _ => none
  | (k', v) :: m, k => if k' = k then some v else get m k

/-- The assignment `m[k] = v`: overwrite the entry of `k`, or add one. -/
def set {V : Type} : GoMap V → String → V → GoMap V
  | [], k, v => [(k, v)]
  | (k', v') :: m, k, v => if k' = k then (k, v) :: m else (k', v') :: set m k v

end GoMap

/-! ## Library functions the source calls -/

/-- The outcome of an integer parse that failed. -/
inductive NumError
  | ErrSyntax
  | ErrRange
  deriving DecidableEq

/-- The digit loop of `strconv.ParseUint(s, 10, 64)`: `n` is the value read so far.  A byte
that is no decimal digit is a syntax error with value `0`; a value that leaves the range of
`uint64` is a range error with value `2^64 - 1`, reported at the byte where it happens. -/
def parseUintLoop : List Char → Nat → Nat × Option NumError
  | [], n => (n, none)
  | c :: cs, n =>
    if '0' ≤ c ∧ c ≤ '9' then
      if n ≥ (2 ^ 64 - 1) / 10 + 1 then (2 ^ 64 - 1, some .ErrRange)
      else if n * 10 + (c.toNat - 48) > 2 ^ 64 - 1 then (2 ^ 64 - 1, some .ErrRange)
      else parseUintLoop cs (n * 10 + (c.toNat - 48))
    else (0, some .ErrSyntax)

/-- The function `strconv.Atoi` with a 64-bit `int`: an optional sign followed by at least
one decimal digit, the value within `[-2^63, 2^63 - 1]`.  The second component is the `error`
result (`none` is `nil`); on a syntax error the value is `0`, on a range error it is the
nearest bound. -/
def Atoi (s : String) : Int × Option NumError :=
  match s.data with
  | [] => (0, some .ErrSyntax)
  | c :: cs =>
    let neg : Bool := c = '-'
    let body := if c = '-' ∨ c = '+' then cs else c :: cs
    if body = [] then (0, some .ErrSyntax)
    else
      match parseUintLoop body 0 with
      | (_, some .ErrSyntax) => (0, some .ErrSyntax)
      | (_, some .ErrRange) =>
        if neg then (-(2 ^ 63 : Int), some .ErrRange)
        else ((2 ^ 63 - 1 : Int), some .ErrRange)
      | (un, none) =>
        if !neg ∧ un ≥ 2 ^ 63 then ((2 ^ 63 - 1 : Int), some .ErrRange)
        else if neg ∧ un > 2 ^ 63 then (-(2 ^ 63 : Int), some .ErrRange)
        else (if neg then -(un : Int) else (un : Int), none)

/-- Whether `sub` starts the text `s`. -/
def startsWith : List Char → List Char → Bool
  | _, [] => true
  | [], _ :: _ => false
  | c :: cs, p :: ps => c == p && startsWith cs ps

/-- Whether `sub` occurs in `s` at some position. -/
def containsChars : List Char → List Char → Bool
  | [], sub => startsWith [] sub
  | c :: cs, sub => startsWith (c :: cs) sub || containsChars cs sub

/-- The function `strings.Contains`. -/
def stringsContains (s sub : String) : Bool := containsChars s.data sub.data

/-- Bytewise comparison `a <= b` of two texts, as Go's `<=` on strings: the first position
where they differ decides, and a text that is the start of another is the smaller one. -/
def charsLe : List Char → List Char → Bool
  | [], _ => true
  | _ :: _, [] => false
  | a :: as, b :: bs =>
    if a.toNat < b.toNat then true
    else if b.toNat < a.toNat then false
    else charsLe as bs

/-- Go's `a <= b` on strings. -/
def stringLe (a b : String) : Prop := charsLe a.data b.data = true

instance : DecidableRel stringLe := fun a b =>
  inferInstanceAs (Decidable (charsLe a.data b.data = true))

/-- The function `sort.Strings`: the strings in increasing order.  Equal strings cannot be told
apart, so the sorted list is the same whatever algorithm sorts it. -/
def sortStrings (l : List String) : List String := l.insertionSort stringLe

/-! ## Floating-point numbers and their decimal text -/

/-- A `float64`.  A finite value is named by the decimal that `strconv` computes for it when
asked for the shortest text that reads back as the same value: the digits `d` (most
significant first, none for zero) and the position `dp` of the decimal point, the value being
`0.d₁d₂… × 10^dp`.  Distinct finite values have distinct shortest decimals. -/
inductive Float64
  | nan
  | inf (neg : Bool)
  | finite (neg : Bool) (d : List (Fin 10)) (dp : Int)
  deriving DecidableEq

/-- The character of a decimal digit. -/
def digitChar (d : Fin 10) : Char := "0123456789".data.getD d.val '0'

/-- The `%f` layout of `strconv` (`fmtF`) with the digit count of the shortest form, which is
`max (nd - dp) 0` digits after the point: sign, integer part padded with zeros (or a lone
`0`), and the fraction when there is one.  No exponent is written. -/
def fmtF (neg : Bool) (d : List (Fin 10)) (dp : Int) : List Char :=
  let nd : Int := d.length
  let sign : List Char := if neg then ['-'] else []
  let whole : List Char :=
    if dp > 0 then
      (d.take (min d.length dp.toNat)).map digitChar
        ++ List.replicate (dp.toNat - min d.length dp.toNat) '0'
    else ['0']
  let prec : Nat := (nd - dp).toNat
  let frac : List Char :=
    if prec > 0 then
      '.' :: (List.range prec).map fun i =>
        let j : Int := dp + i
        if 0 ≤ j ∧ j < nd then digitChar (d.getD j.toNat 0) else '0'
    else []
  sign ++ whole ++ frac

/-- The call `strconv.FormatFloat(t, 'f', -1, 64)`. -/
def FormatFloat : Float64 → String
  | .nan => "NaN"
  | .inf false => "+Inf"
  | .inf true => "-Inf"
  | .finite neg d dp => String.mk (fmtF neg d dp)

/-! ## The data model -/

/-- A Go `interface{}` value, by dynamic type.  `other` stands for every dynamic type the
source does not name (`nil`, slices, maps, ...). -/
inductive Dyn
  | bool (b : Bool)
  | str (s : String)
  | int (i : Int)
  | float (f : Float64)
  | other
  deriving DecidableEq

/-- The type `monitor.Rule` of the client library. -/
structure Rule where
  Key : String
  Value : Dyn
  Comparison : String
  deriving DecidableEq

/-- The fields of `monitor.Job` that the source reads or writes.  `Rules` is a slice of
pointers: `none` is a nil pointer.  `Type_` is the field `Type`. -/
structure Job where
  ID : String
  Config : GoMap Dyn
  Rules : List (Option Rule)
  Name : String
  Type_ : String
  Regions : List String
  Active : Bool
  Frequency : Int
  Policy : String
  RegionScope : String
  Notes : String
  NotifyDelay : Int
  NotifyRepeat : Int
  NotifyFailback : Bool
  NotifyRegional : Bool
  NotifyListID : String
  RapidRecheck : Bool
  Mute : Bool
  deriving DecidableEq

/-- The zero value `monitor.Job{}`. -/
def Job.zero : Job :=
  { ID := "", Config := [], Rules := [], Name := "", Type_ := "", Regions := [],
    Active := false, Frequency := 0, Policy := "", RegionScope := "", Notes := "",
    NotifyDelay := 0, NotifyRepeat := 0, NotifyFailback := false, NotifyRegional := false,
    NotifyListID := "", RapidRecheck := false, Mute := false }

/-- One element of the `rules` list of the schema: three string fields. -/
structure RuleData where
  value : String
  comparison : String
  key : String
  deriving DecidableEq

/-- The content of a `schema.ResourceData` for `monitoringJobResource`: the identifier and one
field per schema entry.  A field read with `Get` only holds the value `Get` returns (the
schema default when the operator gave none).  A field read with `GetOk` is `none` when it was
never set.  `rules` is `none` when `Get` returns `nil`. -/
structure ResourceData where
  id : String
  name : String
  job_type : String
  regions : List String
  frequency : Int
  config : GoMap String
  active : Bool
  rapid_recheck : Bool
  mute : Bool
  policy : String
  notes : Option String
  notify_delay : Option Int
  notify_repeat : Option Int
  notify_failback : Option Bool
  notify_regional : Option Bool
  notify_list : Option String
  rules : Option (List RuleData)
  deriving DecidableEq

/-- The call `d.GetOk(key)` on a field whose zero value is `zero`: the value, and whether the
field has been set to a value other than the zero value. -/
def GetOk {α : Type} [DecidableEq α] (zero : α) : Option α → α × Bool
  | none => (zero, false)
  | some v => (v, decide (v ≠ zero))

/-- The call `d.Set("config", config)` with a `map[string]string`: the field writer replaces
the whole map; it accepts every such map, so the error result is `nil`. -/
def ResourceData.SetConfig (d : ResourceData) (config : GoMap String) :
    Except String ResourceData :=
  .ok { d with config := config }

/-- The call `d.Set("rules", rules)`: the field writer stores the list when every `value` is
a string, the type of the schema field; otherwise it reports an error, which the source
drops, and the field keeps its content. -/
def ResourceData.SetRules (d : ResourceData) (rules : List (Dyn × String × String)) :
    ResourceData :=
  match rules.mapM (fun m => match m with
      | (.str s, c, k) => some ({ value := s, comparison := c, key := k } : RuleData)
      | _ => none) with
  | some rs => { d with rules := some rs }
  | none => d

/-! ## `monitoringJobToResourceData` -/

/-- The loop over `r.Config` (source lines 140-161); `config` is the map built so far.  The
type assertion `v.(bool)` has no second result, so it panics on a value that is no `bool`;
the type switch of the last branch has no default case. -/
def stateConfigLoop : GoMap Dyn → GoMap String → Except String (GoMap String)
  | [], config => .ok config
  | (k, v) :: rest, config =>
    if k = "ssl" then
      match v with
      | .bool b => stateConfigLoop rest (config.set k (if b then "1" else "0"))
      | _ => .error "interface conversion: interface \x7b\x7d is not bool"
    else if k = "follow_redirect" ∨ k = "ipv6" ∨ k = "tls_skip_verify"
        ∨ k = "tls_add_verify" then
      match v with
      | .bool b => stateConfigLoop rest (config.set k (if b then "true" else "false"))
      | _ => .error "interface conversion: interface \x7b\x7d is not bool"
    else
      match v with
      | .str t => stateConfigLoop rest (config.set k t)
      | .float t => stateConfigLoop rest (config.set k (FormatFloat t))
      | _ => stateConfigLoop rest config

/-- The loop over `r.Rules` (source lines 176-182): one `(value, comparison, key)` record per
rule; reading a field through a nil pointer panics. -/
def stateRulesLoop : List (Option Rule) → Except String (List (Dyn × String × String))
  | [] => .ok []
  | none :: _ => .error "invalid memory address or nil pointer dereference"
  | some r :: rest =>
    match stateRulesLoop rest with
    | .ok ms => .ok ((r.Value, r.Comparison, r.Key) :: ms)
    | .error e => .error e

/-- The function `monitoringJobToResourceData(d, r)`: the content of `d` when it returns, or
the panic.  Its `error` result is always `nil`.  Every `d.Set` writes one field, so the
writes are gathered in one record, each field with its source line.  (`sort.Strings` also
reorders `r.Regions` in place; no caller reads `r` afterwards.) -/
def monitoringJobToResourceData (d : ResourceData) (r : Job) : Except String ResourceData :=
  match stateConfigLoop r.Config [] with                         -- lines 139-161
  | .error e => .error e
  | .ok config =>
    match d.SetConfig config with                                -- line 162
    | .error e => .error ("[DEBUG] Error setting Config error: " ++ e)   -- line 164
    | .ok dc =>
      let d1 : ResourceData :=
        { dc with
          id := r.ID                                             -- line 128
          name := r.Name                                         -- line 129
          job_type := r.Type_                                    -- line 130
          active := r.Active                                     -- line 131
          mute := r.Mute                                         -- line 132
          regions :=                                             -- lines 133-136
            if r.Regions.length > 0 then sortStrings r.Regions else d.regions
          frequency := r.Frequency                               -- lines 137, 168
          rapid_recheck := r.RapidRecheck                        -- line 138
          policy := r.Policy                                     -- line 166
          notes := some r.Notes                                  -- line 167
          notify_delay := some r.NotifyDelay                     -- line 169
          notify_repeat := some r.NotifyRepeat                   -- line 170
          notify_regional := some r.NotifyRegional               -- line 171
          notify_failback := some r.NotifyFailback               -- line 172
          notify_list := some r.NotifyListID }                   -- line 173
      if r.Rules.length > 0 then                                 -- lines 174-184
        match stateRulesLoop r.Rules with
        | .error e => .error e
        | .ok rules => .ok (d1.SetRules rules)
      else
        .ok d1

/-! ## `resourceDataToMonitoringJob` -/

/-- A slice read `s[i]`, which panics outside `0 ≤ i < len(s)`. -/
def sliceGet {α : Type} (s : List α) (i : Int) : Except String α :=
  if 0 ≤ i ∧ i < s.length then
    match s.get? i.toNat with
    | some x => .ok x
    | none => .error "index out of range"
  else .error "index out of range"

/-- A slice write `s[i] = x`, which panics outside `0 ≤ i < len(s)`. -/
def sliceSet {α : Type} (s : List α) (i : Int) (x : α) : Except String (List α) :=
  if 0 ≤ i ∧ i < s.length then .ok (s.set i.toNat x) else .error "index out of range"

/-- The first loop over the rules (source lines 207-214), on the list `d.Get("rules")`
returned: one rule per element, its `Value` the declared text. -/
def domainRulesLoop (rawRules : List RuleData) : List (Option Rule) :=
  rawRules.map fun rule =>
    some { Value := .str rule.value, Comparison := rule.comparison, Key := rule.key }

/-- The second loop over the rules (source lines 218-230), from loop index `i` on.  In its
body the `i` of `if i, err := strconv.Atoi(value)` hides the loop index in both branches, so
both writes of `Value` go to the slot numbered by the result of `Atoi`. -/
def domainRulesParseLoop :
    List RuleData → Nat → List (Option Rule) → Except String (List (Option Rule))
  | [], _, rules => .ok rules
  | rule :: rest, i, rules => do
    let rules ← sliceSet rules i
      (some { Comparison := rule.comparison, Key := rule.key, Value := .other })
    let value := rule.value
    let parsed := Atoi value
    let slot ← sliceGet rules parsed.1
    match slot with
    | none => .error "invalid memory address or nil pointer dereference"
    | some t =>
      let rules ← sliceSet rules parsed.1
        (some { t with Value := if parsed.2 = none then .int parsed.1 else .str value })
      domainRulesParseLoop rest (i + 1) rules

/-- The loop over the flat config (source lines 233-245); `config` is the map built so
far. -/
def domainConfigLoop : GoMap String → GoMap Dyn → GoMap Dyn
  | [], config => config
  | (k, v) :: rest, config =>
    if k = "ssl" ∨ k = "follow_redirect" ∨ k = "ipv6" ∨ k = "tls_skip_verify"
        ∨ k = "tls_add_verify" then
      if v = "1" ∨ v = "true" then domainConfigLoop rest (config.set k (.bool true))
      else domainConfigLoop rest config
    else
      if (Atoi v).2 = none then domainConfigLoop rest (config.set k (.int (Atoi v).1))
      else domainConfigLoop rest (config.set k (.str v))

/-- The function `resourceDataToMonitoringJob(r, d)`: the content of `*r` when it returns, or
the panic.  Its `error` result is always `nil`.  Every assignment writes one field of `*r`,
so the writes are gathered in one record, each field with its source line.

The variable `rawRules` of line 204 is declared without a value and never assigned: the
`rawRules` of line 205 is a new variable, local to the `if`.  The loop of line 218 therefore
ranges over a nil slice. -/
def resourceDataToMonitoringJob (r : Job) (d : ResourceData) : Except String Job :=
  let rawRules : List RuleData := []                             -- line 204
  let rules1 : List (Option Rule) :=                             -- lines 205-217
    match d.rules with
    | some rawRules => domainRulesLoop rawRules
    | none => []
  match domainRulesParseLoop rawRules 0 rules1 with              -- lines 218-230
  | .error e => .error e
  | .ok rules =>
    .ok
      { r with
        ID := d.id                                               -- line 189
        Name := d.name                                           -- line 190
        Type_ := d.job_type                                      -- line 191
        Active := d.active                                       -- line 192
        Mute := d.mute                                           -- line 193
        Regions :=                                               -- lines 194-201
          if d.regions.length > 1 then sortStrings d.regions else d.regions
        Frequency := d.frequency                                 -- lines 202, 253
        RapidRecheck := d.rapid_recheck                          -- line 203
        Rules := rules
        Config := domainConfigLoop d.config []                   -- lines 231-247
        RegionScope := "fixed"                                   -- line 248
        Policy := d.policy                                       -- line 249
        Notes :=                                                 -- lines 250-252
          if (GetOk "" d.notes).2 then (GetOk "" d.notes).1 else r.Notes
        NotifyDelay :=                                           -- lines 254-256
          if (GetOk 0 d.notify_delay).2 then (GetOk 0 d.notify_delay).1 else r.NotifyDelay
        NotifyRepeat :=                                          -- lines 257-259
          if (GetOk 0 d.notify_repeat).2 then (GetOk 0 d.notify_repeat).1 else r.NotifyRepeat
        NotifyRegional :=                                        -- lines 260-262
          if (GetOk false d.notify_regional).2 then (GetOk false d.notify_regional).1
          else r.NotifyRegional
        NotifyFailback :=                                        -- lines 263-265
          if (GetOk false d.notify_failback).2 then (GetOk false d.notify_failback).1
          else r.NotifyFailback
        NotifyListID :=                                          -- lines 266-268
          if (GetOk "" d.notify_list).2 then (GetOk "" d.notify_list).1
          else r.NotifyListID }

/-! ## The four operations of the resource -/

/-- A Go `error` value, by the text `Error()` returns. -/
structure GoError where
  text : String
  deriving DecidableEq

/-- The `*http.Response` a client call returns beside its error. -/
structure Response where
  Status : String
  StatusCode : Int
  deriving DecidableEq

/-- The client `meta.(*ns1.Client)`, by its `Jobs` service.  `Create` and `Update` fill the
job they are given from the answer of the service, so they also return the job. -/
structure Client where
  Create : Job → Job × Option Response × Option GoError
  Get : String → Option Job × Option Response × Option GoError
  Update : Job → Job × Option Response × Option GoError
  Delete : String → Option Response × Option GoError

/-- The type of `ConvertToNs1Error`, a function of the package defined in another file. -/
abbrev ErrorConverter := Option Response → Option GoError → Option GoError

/-- The function `MonitoringJobCreate`: the content of `d` and the `error` it returns, or
the panic. -/
def MonitoringJobCreate (ConvertToNs1Error : ErrorConverter) (d : ResourceData)
    (client : Client) : Except String (ResourceData × Option GoError) :=
  match resourceDataToMonitoringJob Job.zero d with
  | .error e => .error e
  | .ok j =>
    match client.Create j with
    | (_, resp, some err) => .ok (d, ConvertToNs1Error resp (some err))
    | (j, _, none) =>
      match monitoringJobToResourceData d j with
      | .ok d => .ok (d, none)
      | .error e => .error e

/-- The function `MonitoringJobRead`. -/
def MonitoringJobRead (ConvertToNs1Error : ErrorConverter) (d : ResourceData)
    (client : Client) : Except String (ResourceData × Option GoError) :=
  match client.Get d.id with
  | (_, resp, some err) =>
    if stringsContains err.text "unknown monitoring job" then
      .ok ({ d with id := "" }, none)
    else
      .ok (d, ConvertToNs1Error resp (some err))
  | (some j, _, none) =>
    match monitoringJobToResourceData d j with
    | .ok d => .ok (d, none)
    | .error e => .error e
  | (none, _, none) => .error "invalid memory address or nil pointer dereference"

/-- The function `MonitoringJobDelete`. -/
def MonitoringJobDelete (ConvertToNs1Error : ErrorConverter) (d : ResourceData)
    (client : Client) : Except String (ResourceData × Option GoError) :=
  match client.Delete d.id with
  | (resp, err) =>
    let d := { d with id := "" }
    .ok (d, ConvertToNs1Error resp err)

/-- The function `MonitoringJobUpdate`. -/
def MonitoringJobUpdate (ConvertToNs1Error : ErrorConverter) (d : ResourceData)
    (client : Client) : Except String (ResourceData × Option GoError) :=
  match resourceDataToMonitoringJob { Job.zero with ID := d.id } d with
  | .error e => .error e
  | .ok j =>
    match client.Update j with
    | (_, resp, some err) => .ok (d, ConvertToNs1Error resp (some err))
    | (j, _, none) =>
      match monitoringJobToResourceData d j with
      | .ok d => .ok (d, none)
      | .error e => .error e

/-! ## The validator of the field `policy` -/

/-- The part of the `regexp/syntax` tree the pattern of the source needs. -/
inductive Regexp
  | emptyMatch
  | literal (c : Char)
  | concat (a b : Regexp)
  | alternate (a b : Regexp)
  | capture (a : Regexp)
  | beginText
  | endText

/-- The literal text `w`. -/
def Regexp.word : List Char → Regexp
  | [] => .emptyMatch
  | c :: cs => .concat (.literal c) (Regexp.word cs)

/-- One match attempt of `re` at a position of the text: the position is given by whether it
is the start of the text and by the text that is left; the result lists every position where
a match of `re` that begins here can end.  Without the flag `m`, `^` holds at the start of
the text only and `$` at its end only. -/
def Regexp.step : Regexp → Bool × List Char → List (Bool × List Char)
  | .emptyMatch, pos => [pos]
  | .literal _, (_, []) => []
  | .literal c, (_, x :: xs) => if x = c then [(false, xs)] else []
  | .concat a b, pos => (a.step pos).flatMap fun p => b.step p
  | .alternate a b, pos => a.step pos ++ b.step pos
  | .capture a, pos => a.step pos
  | .beginText, (atStart, rest) => if atStart then [(atStart, rest)] else []
  | .endText, (atStart, rest) => if rest = [] then [(atStart, rest)] else []

/-- Whether `re` matches at the given position or at a later one. -/
def Regexp.matchFrom (re : Regexp) : Bool → List Char → Bool
  | atStart, [] => !(re.step (atStart, [])).isEmpty
  | atStart, c :: cs => !(re.step (atStart, c :: cs)).isEmpty || Regexp.matchFrom re false cs

/-- The method `MatchString`: whether the text contains a match of `re`. -/
def Regexp.MatchString (re : Regexp) (s : String) : Bool := re.matchFrom true s.data

/-- The pattern `^(all|one|quorum)$` as `regexp.MustCompile` parses it. -/
def policyPattern : Regexp :=
  .concat .beginText
    (.concat
      (.capture (.alternate (Regexp.word "all".data)
        (.alternate (Regexp.word "one".data) (Regexp.word "quorum".data))))
      .endText)

/-- The `ValidateFunc` of the field `policy` (source lines 65-72): the warnings and the
errors it returns for the value `v` of the field named `k`.  The verb `%q` of `fmt` is the
parameter `quote`. -/
def policyValidateFunc (quote : String → String) (v k : String) :
    List String × List GoError :=
  let value := v
  if !policyPattern.MatchString value then
    ([], [⟨"only all, one, quorum allowed in " ++ quote k⟩])
  else
    ([], [])

/-! ## Predicates used in the statements -/

/-- The five config keys the source treats as booleans. -/
def boolKey (k : String) : Prop :=
  k = "ssl" ∨ k = "follow_redirect" ∨ k = "ipv6" ∨ k = "tls_skip_verify" ∨ k = "tls_add_verify"

instance (k : String) : Decidable (boolKey k) := by unfold boolKey; infer_instance

/-- Whether a dynamic value is a `bool`. -/
def Dyn.isBool : Dyn → Bool
  | .bool _ => true
  | _ => false

/-- Every value stored under one of the five boolean keys is a `bool`. -/
def BoolKeysTyped (cfg : GoMap Dyn) : Prop :=
  ∀ kv ∈ cfg, boolKey kv.1 → kv.2.isBool = true

instance (cfg : GoMap Dyn) : Decidable (BoolKeysTyped cfg) := by
  unfold BoolKeysTyped; infer_instance

/-- No rule pointer of the slice is nil. -/
def RulesNonNil (rules : List (Option Rule)) : Prop := ∀ x ∈ rules, x ≠ none

instance (rules : List (Option Rule)) : Decidable (RulesNonNil rules) := by
  unfold RulesNonNil; infer_instance

/-- The flat text the loop stores for the entry `(k, v)`, when it stores one. -/
def flatEntry (k : String) (v : Dyn) : Option String :=
  if k = "ssl" then
    match v with
    | .bool b => some (if b then "1" else "0")
    | _ => none
  else if k = "follow_redirect" ∨ k = "ipv6" ∨ k = "tls_skip_verify" ∨ k = "tls_add_verify" then
    match v with
    | .bool b => some (if b then "true" else "false")
    | _ => none
  else
    match v with
    | .str t => some t
    | .float t => some (FormatFloat t)
    | _ => none

/-! ## Inputs used as examples -/

/-- The declared state of the scenario `check1`: the fields the scenario names, every other
field as the schema leaves it when the operator gives none. -/
def check1State : ResourceData :=
  { id := ""
    name := "check1"
    job_type := "tcp"
    regions := ["lga", "was"]
    frequency := 60
    config := [("ssl", "1")]
    active := true
    rapid_recheck := false
    mute := false
    policy := "quorum"
    notes := none
    notify_delay := none
    notify_repeat := none
    notify_failback := some true
    notify_regional := none
    notify_list := none
    rules := some [] }

/-- The state `check1State` with two declared rules, the first with a numeric text. -/
def twoRulesState : ResourceData :=
  { check1State with
    rules := some [{ value := "42", comparison := ">=", key := "rtt" },
                   { value := "abc", comparison := "==", key := "output" }] }

/-- The number `3.5`: shortest decimal `35`, decimal point after the first digit. -/
def threeAndHalf : Float64 := .finite false [3, 5] 1

/-- A domain record whose config holds a string under `ssl`. -/
def sslTextJob : Job :=
  { Job.zero with Config := [("ssl", .str "yes")] }

/-- A client whose every call fails with the given error text. -/
def failingClient (text : String) : Client :=
  { Create := fun j => (j, none, some ⟨text⟩)
    Get := fun _ => (none, none, some ⟨text⟩)
    Update := fun j => (j, none, some ⟨text⟩)
    Delete := fun _ => (none, some ⟨text⟩) }

/-- An error converter that hands the error back. -/
def keepError : ErrorConverter := fun _ err => err

/-- The state `check1State` once created, with an identifier. -/
def trackedState : ResourceData := { check1State with id := "52a27d4397d5f07003fdbe7b" }

/-- The state `check1State` with an empty regions list. -/
def noRegionsState : ResourceData := { check1State with regions := [] }

/-- A domain record with three regions out of order and booleans under two boolean keys. -/
def unsortedJob : Job :=
  { Job.zero with
    Regions := ["was", "lga", "ams"]
    Config := [("ssl", .bool true), ("ipv6", .bool false), ("host", .str "example.com")] }

/-- A domain record whose config holds, under keys that are not boolean keys, a string, a
number, a boolean and an integer. -/
def mixedJob : Job :=
  { Job.zero with
    Config := [("host", .str "example.com"), ("threshold", .float threeAndHalf),
               ("verbose", .bool true), ("port", .int 443)] }

/-- A client whose `Create` and `Update` succeed and leave in the job the identifier the
service answers with, and everything else as it was sent. -/
def answeringClient (id : String) : Client :=
  { Create := fun j => ({ j with ID := id }, none, none)
    Get := fun _ => (none, none, some ⟨"not used"⟩)
    Update := fun j => ({ j with ID := id }, none, none)
    Delete := fun _ => (none, none) }

/-- A declared state whose config holds boolean keys with several spellings and other keys
with numeric and plain texts. -/
def mixedConfigState : ResourceData :=
  { check1State with
    config := [("ssl", "1"), ("ipv6", "true"), ("follow_redirect", "false"),
               ("tls_skip_verify", "0"), ("tls_add_verify", "yes"), ("port", "443"),
               ("offset", "-007"), ("gain", "+5"), ("host", "example.com"),
               ("threshold", "3.5")] }

/-- The state `check1State` with one declared rule whose value is the text `5`. -/
def ruleFiveState : ResourceData :=
  { check1State with rules := some [{ value := "5", comparison := ">=", key := "rtt" }] }

/-- A declared state whose boolean keys are spelled `1` for `ssl` and `true` for the others,
and whose other config values are no base-10 integers. -/
def stableConfigState : ResourceData :=
  { check1State with
    config := [("ssl", "1"), ("ipv6", "true"), ("host", "example.com"),
               ("threshold", "3.5"), ("method", "GET")] }

/-! ## Lemmas on Go maps -/

theorem GoMap.get_set_same {V : Type} (m : GoMap V) (k : String) (v : V) :
    (m.set k v).get k = some v := by
  induction m with
  | nil => simp [GoMap.set, GoMap.get]
  | cons e m ih =>
    obtain ⟨k', v'⟩ := e
    by_cases h : k' = k
    · simp [GoMap.set, GoMap.get, h]
    · simp [GoMap.set, GoMap.get, h, ih]

theorem GoMap.get_set_ne {V : Type} (m : GoMap V) (k k' : String) (v : V) (h : k ≠ k') :
    (m.set k v).get k' = m.get k' := by
  induction m with
  | nil => simp [GoMap.set, GoMap.get, h]
  | cons e m ih =>
    obtain ⟨k₀, v₀⟩ := e
    by_cases h₀ : k₀ = k
    · subst h₀
      simp [GoMap.set, GoMap.get, h]
    · by_cases h₁ : k₀ = k'
      · subst h₁
        simp only [GoMap.set, h₀, if_false, GoMap.get, if_true]
      · simp only [GoMap.set, h₀, if_false, GoMap.get, h₁, ih]

theorem GoMap.get_eq_none_of_not_mem {V : Type} (m : GoMap V) (k : String)
    (h : k ∉ m.keys) : m.get k = none := by
  induction m with
  | nil => rfl
  | cons e m ih =>
    obtain ⟨k₀, v₀⟩ := e
    simp only [GoMap.keys, List.map_cons, List.mem_cons, not_or] at h
    have h₁ : ¬ k₀ = k := fun e => h.1 e.symm
    simp only [GoMap.get, h₁, if_false]
    exact ih h.2

theorem GoMap.mem_of_get {V : Type} (m : GoMap V) (k : String) (v : V)
    (h : m.get k = some v) : (k, v) ∈ m := by
  induction m with
  | nil => simp [GoMap.get] at h
  | cons e m ih =>
    obtain ⟨k₀, v₀⟩ := e
    by_cases h₀ : k₀ = k
    · simp only [GoMap.get, h₀, if_true, Option.some.injEq] at h
      simp [h₀, h]
    · simp only [GoMap.get, h₀, if_false] at h
      exact List.mem_cons_of_mem _ (ih h)

theorem GoMap.keys_set {V : Type} (m : GoMap V) (k : String) (v : V) :
    GoMap.keys (GoMap.set m k v) = if k ∈ GoMap.keys m then GoMap.keys m else GoMap.keys m ++ [k] := by
  induction m with
  | nil => simp [GoMap.set, GoMap.keys]
  | cons e m ih =>
    obtain ⟨k₀, v₀⟩ := e
    by_cases h : k₀ = k
    · subst h
      simp [GoMap.set, GoMap.keys]
    · have h' : ¬ k = k₀ := fun e => h e.symm
      simp only [GoMap.set, h, if_false, GoMap.keys, List.map_cons, List.mem_cons, h', false_or]
      simp only [GoMap.keys] at ih
      rw [ih]
      split <;> simp

theorem GoMap.set_WF {V : Type} (m : GoMap V) (k : String) (v : V) (h : GoMap.WF m) :
    GoMap.WF (GoMap.set m k v) := by
  unfold GoMap.WF at *
  rw [GoMap.keys_set]
  split
  · exact h
  · rename_i hk
    rw [List.nodup_append]
    refine ⟨h, List.nodup_singleton k, ?_⟩
    intro a ha hb
    simp only [List.mem_singleton] at hb
    subst hb
    exact hk ha

/-! ## Text search and number formatting -/

theorem startsWith_iff : ∀ s sub : List Char,
    startsWith s sub = true ↔ ∃ post, s = sub ++ post
  | s, [] => by simp [startsWith]
  | [], p :: ps => by simp [startsWith]
  | c :: cs, p :: ps => by
    simp only [startsWith, Bool.and_eq_true, beq_iff_eq, startsWith_iff cs ps, List.cons_append,
      List.cons.injEq]
    constructor
    · rintro ⟨rfl, post, rfl⟩; exact ⟨post, rfl, rfl⟩
    · rintro ⟨post, rfl, rfl⟩; exact ⟨rfl, post, rfl⟩

/-- The function `stringsContains` decides whether `sub` is a contiguous part of `s`. -/
theorem containsChars_iff : ∀ s sub : List Char,
    containsChars s sub = true ↔ ∃ pre post, s = pre ++ sub ++ post
  | [], sub => by
    simp only [containsChars, startsWith_iff]
    constructor
    · rintro ⟨post, h⟩; exact ⟨[], post, by simpa using h⟩
    · rintro ⟨pre, post, h⟩
      have h' := h.symm
      simp only [List.append_eq_nil] at h'
      exact ⟨[], by simp [h'.1.2]⟩
  | c :: cs, sub => by
    simp only [containsChars, Bool.or_eq_true, startsWith_iff, containsChars_iff cs sub]
    constructor
    · rintro (⟨post, h⟩ | ⟨pre, post, h⟩)
      · exact ⟨[], post, by simpa using h⟩
      · exact ⟨c :: pre, post, by simp [h]⟩
    · rintro ⟨pre, post, h⟩
      cases pre with
      | nil => left; exact ⟨post, by simpa using h⟩
      | cons x pre =>
        right
        simp only [List.cons_append, List.cons.injEq] at h
        exact ⟨pre, post, h.2⟩

theorem charsLe_total : ∀ a b : List Char, charsLe a b = true ∨ charsLe b a = true
  | [], _ => Or.inl (by simp [charsLe])
  | _ :: _, [] => Or.inr (by simp [charsLe])
  | a :: as, b :: bs => by
    rcases Nat.lt_trichotomy a.toNat b.toNat with h | h | h
    · left; simp [charsLe, h]
    · rcases charsLe_total as bs with ih | ih
      · left; simp [charsLe, h, ih]
      · right; simp [charsLe, h, ih]
    · right; simp [charsLe, h]

theorem charsLe_trans : ∀ a b c : List Char,
    charsLe a b = true → charsLe b c = true → charsLe a c = true
  | [], _, _ => fun _ _ => by simp [charsLe]
  | _ :: _, [], _ => fun h _ => by simp [charsLe] at h
  | _ :: _, _ :: _, [] => fun _ h => by simp [charsLe] at h
  | a :: as, b :: bs, c :: cs => fun hab hbc => by
    simp only [charsLe] at hab hbc ⊢
    by_cases h1 : a.toNat < b.toNat
    · by_cases h2 : b.toNat < c.toNat
      · have : a.toNat < c.toNat := by omega
        simp [this]
      · by_cases h3 : c.toNat < b.toNat
        · simp [h2, h3] at hbc
        · have : a.toNat < c.toNat := by omega
          simp [this]
    · by_cases h1' : b.toNat < a.toNat
      · simp [h1, h1'] at hab
      · simp only [h1, h1', if_false] at hab
        by_cases h2 : b.toNat < c.toNat
        · have : a.toNat < c.toNat := by omega
          simp [this]
        · by_cases h3 : c.toNat < b.toNat
          · simp [h2, h3] at hbc
          · simp only [h2, h3, if_false] at hbc
            have e1 : ¬ a.toNat < c.toNat := by omega
            have e2 : ¬ c.toNat < a.toNat := by omega
            simp only [e1, e2, if_false]
            exact charsLe_trans as bs cs hab hbc

instance : IsTotal String stringLe := ⟨fun a b => charsLe_total a.data b.data⟩

instance : IsTrans String stringLe := ⟨fun a b c => charsLe_trans a.data b.data c.data⟩

theorem char_eq_of_toNat_eq (x y : Char) (h : x.toNat = y.toNat) : x = y := by
  apply Char.ext
  apply UInt32.ext
  exact h

theorem charsLe_iff_not_lt : ∀ a b : List Char, charsLe a b = true ↔ ¬ b < a
  | [], b => by
    simp only [charsLe, true_iff]
    intro h; cases h
  | a :: as, [] => by
    simp only [charsLe, Bool.false_eq_true, false_iff, not_not]
    exact List.Lex.nil
  | a :: as, b :: bs => by
    have ih := charsLe_iff_not_lt as bs
    have hlt : ∀ x y : Char, x < y ↔ x.toNat < y.toNat := fun x y => Iff.rfl
    simp only [charsLe]
    by_cases h1 : a.toNat < b.toNat
    · simp only [h1, if_true, true_iff]
      intro h
      cases h with
      | rel h => have := (hlt b a).mp h; omega
      | cons h => omega
    · by_cases h2 : b.toNat < a.toNat
      · simp only [h1, h2, if_false, if_true, Bool.false_eq_true, false_iff, not_not]
        exact List.Lex.rel ((hlt b a).mpr h2)
      · simp only [h1, h2, if_false, ih]
        have hab : a = b := char_eq_of_toNat_eq a b (by omega)
        subst hab
        constructor
        · intro hn h
          cases h with
          | rel h => exact h2 ((hlt a a).mp h)
          | cons h => exact hn h
        · intro hn h
          exact hn (List.Lex.cons h)

/-- The order of `stringLe` is the lexicographic order `≤` of `String`. -/
theorem stringLe_iff_le (a b : String) : stringLe a b ↔ a ≤ b := by
  rw [String.le_iff_toList_le, ← not_lt]
  exact charsLe_iff_not_lt a.data b.data

theorem sortStrings_sorted (l : List String) : (sortStrings l).Sorted (· ≤ ·) := by
  have h : (sortStrings l).Sorted stringLe := List.sorted_insertionSort stringLe l
  exact h.imp fun {a b} hab => (stringLe_iff_le a b).mp hab

theorem sortStrings_perm (l : List String) : (sortStrings l).Perm l :=
  List.perm_insertionSort stringLe l

/-! ## Lemmas on `monitoringJobToResourceData` -/

theorem stateConfigLoop_cons (k : String) (v : Dyn) (rest : GoMap Dyn) (acc : GoMap String) :
    stateConfigLoop ((k, v) :: rest) acc =
      if boolKey k ∧ v.isBool = false then
        .error "interface conversion: interface \x7b\x7d is not bool"
      else
        stateConfigLoop rest
          (match flatEntry k v with
           | some t => GoMap.set acc k t
           | none => acc) := by
  unfold boolKey flatEntry
  by_cases h₁ : k = "ssl"
  · cases v <;> simp [stateConfigLoop, h₁, Dyn.isBool]
  · by_cases h₂ : k = "follow_redirect" ∨ k = "ipv6" ∨ k = "tls_skip_verify" ∨ k = "tls_add_verify"
    · cases v <;> simp [stateConfigLoop, h₁, h₂, Dyn.isBool]
    · cases v <;> simp [stateConfigLoop, h₁, h₂, Dyn.isBool]

theorem stateConfigLoop_get (cfg : GoMap Dyn) :
    ∀ (acc out : GoMap String), cfg.WF → stateConfigLoop cfg acc = .ok out →
      ∀ k, GoMap.get out k =
        match GoMap.get cfg k with
        | some v => (match flatEntry k v with | some t => some t | none => GoMap.get acc k)
        | none => GoMap.get acc k := by
  induction cfg with
  | nil =>
    intro acc out _ h k
    simp only [stateConfigLoop, Except.ok.injEq] at h
    simp [GoMap.get, h]
  | cons e rest ih =>
    obtain ⟨k₀, v₀⟩ := e
    intro acc out hwf h k
    have hnot : k₀ ∉ GoMap.keys rest := (List.nodup_cons.mp hwf).1
    have hrest : GoMap.WF rest := (List.nodup_cons.mp hwf).2
    have hnone : GoMap.get rest k₀ = none := GoMap.get_eq_none_of_not_mem rest k₀ hnot
    rw [stateConfigLoop_cons] at h
    split at h
    · cases h
    · have := ih _ out hrest h k
      rw [this]
      by_cases hk : k₀ = k
      · subst hk
        simp only [GoMap.get, if_true, hnone]
        cases hf : flatEntry k₀ v₀ with
        | none => rfl
        | some t => simp [GoMap.get_set_same]
      · simp only [GoMap.get, hk, if_false]
        cases hf : flatEntry k₀ v₀ with
        | none => rfl
        | some t => simp only [GoMap.get_set_ne _ _ _ _ hk]

theorem stateConfigLoop_ok_iff (cfg : GoMap Dyn) :
    ∀ (acc : GoMap String), (∃ out, stateConfigLoop cfg acc = .ok out) ↔ BoolKeysTyped cfg := by
  induction cfg with
  | nil => intro acc; simp [stateConfigLoop, BoolKeysTyped]
  | cons e rest ih =>
    obtain ⟨k₀, v₀⟩ := e
    intro acc
    rw [stateConfigLoop_cons]
    unfold BoolKeysTyped at *
    by_cases hb : boolKey k₀ ∧ v₀.isBool = false
    · simp only [hb, and_self, if_true]
      constructor
      · rintro ⟨out, h⟩; cases h
      · intro h
        have := h (k₀, v₀) (List.mem_cons_self _ _) hb.1
        rw [hb.2] at this; cases this
    · simp only [hb, if_false, ih]
      constructor
      · intro h kv hkv
        rcases List.mem_cons.mp hkv with rfl | hm
        · intro hk
          by_contra hc
          exact hb ⟨hk, by simpa using hc⟩
        · exact h kv hm
      · intro h kv hkv
        exact h kv (List.mem_cons_of_mem _ hkv)

theorem stateRulesLoop_ok_iff (rules : List (Option Rule)) :
    (∃ ms, stateRulesLoop rules = .ok ms) ↔ RulesNonNil rules := by
  induction rules with
  | nil => simp [stateRulesLoop, RulesNonNil]
  | cons x rest ih =>
    cases x with
    | none =>
      simp [stateRulesLoop, RulesNonNil]
    | some r =>
      have hnn : RulesNonNil (some r :: rest) ↔ RulesNonNil rest := by
        simp [RulesNonNil]
      rw [hnn, ← ih]
      cases h : stateRulesLoop rest with
      | ok ms => simp [stateRulesLoop, h]
      | error e => simp [stateRulesLoop, h]

theorem SetRules_fields (d : ResourceData) (rules : List (Dyn × String × String)) :
    (d.SetRules rules).id = d.id ∧ (d.SetRules rules).regions = d.regions
      ∧ (d.SetRules rules).config = d.config := by
  unfold ResourceData.SetRules
  split <;> simp

/-- What `monitoringJobToResourceData` has written when it returns. -/
theorem monitoringJobToResourceData_ok (d d' : ResourceData) (r : Job)
    (h : monitoringJobToResourceData d r = .ok d') :
    stateConfigLoop r.Config [] = .ok d'.config
      ∧ d'.id = r.ID
      ∧ d'.regions = (if r.Regions.length > 0 then sortStrings r.Regions else d.regions) := by
  unfold monitoringJobToResourceData at h
  cases hc : stateConfigLoop r.Config [] with
  | error e => rw [hc] at h; cases h
  | ok config =>
    rw [hc] at h
    simp only [ResourceData.SetConfig] at h
    split at h
    · split at h
      · cases h
      · rename_i rules hr
        cases h
        obtain ⟨h1, h2, h3⟩ := SetRules_fields
          { d with config := config, id := r.ID, name := r.Name, job_type := r.Type_,
                   active := r.Active, mute := r.Mute,
                   regions := if r.Regions.length > 0 then sortStrings r.Regions else d.regions,
                   frequency := r.Frequency, rapid_recheck := r.RapidRecheck,
                   policy := r.Policy, notes := some r.Notes,
                   notify_delay := some r.NotifyDelay, notify_repeat := some r.NotifyRepeat,
                   notify_regional := some r.NotifyRegional,
                   notify_failback := some r.NotifyFailback,
                   notify_list := some r.NotifyListID } rules
        exact ⟨by rw [h3], h1, h2⟩
    · cases h
      exact ⟨rfl, rfl, rfl⟩

/-- When `monitoringJobToResourceData` returns rather than panics. -/
theorem monitoringJobToResourceData_ok_iff (d : ResourceData) (r : Job) :
    (∃ d', monitoringJobToResourceData d r = .ok d')
      ↔ BoolKeysTyped r.Config ∧ RulesNonNil r.Rules := by
  rw [← stateConfigLoop_ok_iff r.Config [], ← stateRulesLoop_ok_iff]
  unfold monitoringJobToResourceData
  cases hc : stateConfigLoop r.Config [] with
  | error e => simp
  | ok config =>
    simp only [ResourceData.SetConfig]
    by_cases hlen : r.Rules.length > 0
    · simp only [hlen, if_true]
      cases hr : stateRulesLoop r.Rules with
      | error e => simp
      | ok rules => simp
    · have hnil : r.Rules = [] := by
        cases hR : r.Rules with
        | nil => rfl
        | cons x xs => rw [hR] at hlen; simp at hlen
      simp [hnil, stateRulesLoop]

theorem domainConfigLoop_get (cfg : GoMap String) :
    ∀ (acc : GoMap Dyn), GoMap.WF cfg →
      ∀ k, GoMap.get (domainConfigLoop cfg acc) k =
        match GoMap.get cfg k with
        | some v =>
          if boolKey k then
            (if v = "1" ∨ v = "true" then some (.bool true) else GoMap.get acc k)
          else if (Atoi v).2 = none then some (.int (Atoi v).1) else some (.str v)
        | none => GoMap.get acc k := by
  induction cfg with
  | nil => intro acc _ k; simp [domainConfigLoop, GoMap.get]
  | cons e rest ih =>
    obtain ⟨k₀, v₀⟩ := e
    intro acc hwf k
    have hnot : k₀ ∉ GoMap.keys rest := (List.nodup_cons.mp hwf).1
    have hrest : GoMap.WF rest := (List.nodup_cons.mp hwf).2
    have hnone : GoMap.get rest k₀ = none := GoMap.get_eq_none_of_not_mem rest k₀ hnot
    unfold domainConfigLoop
    by_cases hk : k₀ = k
    · subst hk
      simp only [GoMap.get, if_true]
      by_cases hb : boolKey k₀
      · have hb' := hb
        unfold boolKey at hb'
        simp only [hb', hb, if_true]
        by_cases hv : v₀ = "1" ∨ v₀ = "true"
        · simp only [hv, if_true, ih _ hrest, hnone, GoMap.get_set_same]
        · simp only [hv, if_false, ih _ hrest, hnone]
      · have hb' := hb
        unfold boolKey at hb'
        simp only [hb', hb, if_false]
        by_cases ha : (Atoi v₀).2 = none
        · simp only [ha, if_true, ih _ hrest, hnone, GoMap.get_set_same]
        · simp only [ha, if_false, ih _ hrest, hnone, GoMap.get_set_same]
    · simp only [GoMap.get, hk, if_false]
      by_cases hb : boolKey k₀
      · have hb' := hb
        unfold boolKey at hb'
        simp only [hb', if_true]
        by_cases hv : v₀ = "1" ∨ v₀ = "true"
        · simp only [hv, if_true, ih _ hrest, GoMap.get_set_ne _ _ _ _ hk]
        · simp only [hv, if_false, ih _ hrest]
      · have hb' := hb
        unfold boolKey at hb'
        simp only [hb', if_false]
        by_cases ha : (Atoi v₀).2 = none
        · simp only [ha, if_true, ih _ hrest, GoMap.get_set_ne _ _ _ _ hk]
        · simp only [ha, if_false, ih _ hrest, GoMap.get_set_ne _ _ _ _ hk]

/-- The function `resourceDataToMonitoringJob` returns, and what it has written. -/
theorem resourceDataToMonitoringJob_ok (r : Job) (d : ResourceData) :
    ∃ j, resourceDataToMonitoringJob r d = .ok j
      ∧ j.Config = domainConfigLoop d.config []
      ∧ j.Regions = (if d.regions.length > 1 then sortStrings d.regions else d.regions)
      ∧ j.Rules = (match d.rules with
                   | some rawRules => domainRulesLoop rawRules
                   | none => []) := by
  simp only [resourceDataToMonitoringJob, domainRulesParseLoop]
  exact ⟨_, rfl, rfl, rfl, rfl⟩

/-! ## Lemmas on the validator of `policy` -/

theorem mem_step_word (w : List Char) :
    ∀ (b : Bool) (s : List Char) (p : Bool × List Char),
      p ∈ (Regexp.word w).step (b, s) ↔
        s = w ++ p.2 ∧ p.1 = (if w = [] then b else false) := by
  induction w with
  | nil =>
    intro b s p
    simp only [Regexp.word, Regexp.step, List.mem_singleton, List.nil_append, if_true]
    constructor
    · rintro rfl; exact ⟨rfl, rfl⟩
    · rintro ⟨h1, h2⟩; exact Prod.ext h2 h1.symm
  | cons c cs ih =>
    intro b s p
    simp only [Regexp.word, Regexp.step, List.mem_flatMap, List.cons_append, reduceCtorEq, if_false]
    constructor
    · rintro ⟨q, hq, hp⟩
      cases s with
      | nil => simp [Regexp.step] at hq
      | cons x xs =>
        simp only [Regexp.step] at hq
        split at hq
        · rename_i hx
          simp only [List.mem_singleton] at hq
          subst hq
          have := (ih false xs p).mp hp
          refine ⟨by rw [hx, this.1], ?_⟩
          rw [this.2]; split <;> rfl
        · simp at hq
    · rintro ⟨hs, hp⟩
      subst hs
      refine ⟨(false, cs ++ p.2), by simp [Regexp.step], ?_⟩
      rw [ih]
      refine ⟨rfl, ?_⟩
      rw [hp]; split <;> rfl

theorem exists_mem_step_anchored (w₁ w₂ w₃ : List Char) (b : Bool) (s : List Char) :
    (∃ p, p ∈ (Regexp.concat .beginText
        (.concat (.capture (.alternate (Regexp.word w₁)
          (.alternate (Regexp.word w₂) (Regexp.word w₃)))) .endText)).step (b, s)) ↔
      b = true ∧ (s = w₁ ∨ s = w₂ ∨ s = w₃) := by
  simp only [Regexp.step, List.mem_flatMap, List.mem_append, mem_step_word, Prod.exists]
  constructor
  · rintro ⟨pb, ps, qb, qs, hq, rb, rs, hr, hp⟩
    split at hq
    · rename_i hb
      simp only [List.mem_singleton, Prod.mk.injEq] at hq
      obtain ⟨rfl, rfl⟩ := hq
      split at hp
      · rename_i hrs
        subst hrs
        refine ⟨hb, ?_⟩
        rcases hr with ⟨h, -⟩ | ⟨h, -⟩ | ⟨h, -⟩
        · left; simpa using h
        · right; left; simpa using h
        · right; right; simpa using h
      · simp at hp
    · simp at hq
  · rintro ⟨rfl, hs⟩
    rcases hs with rfl | rfl | rfl
    · exact ⟨decide (s = []), [], true, s, by simp, decide (s = []), [], Or.inl ⟨by simp, by simp⟩, by simp⟩
    · exact ⟨decide (s = []), [], true, s, by simp, decide (s = []), [],
        Or.inr (Or.inl ⟨by simp, by simp⟩), by simp⟩
    · exact ⟨decide (s = []), [], true, s, by simp, decide (s = []), [],
        Or.inr (Or.inr ⟨by simp, by simp⟩), by simp⟩

theorem matchFrom_policyPattern (s : List Char) :
    ∀ b, policyPattern.matchFrom b s = true ↔
      b = true ∧ (s = "all".data ∨ s = "one".data ∨ s = "quorum".data) := by
  have key : ∀ (b : Bool) (t : List Char),
      (!(policyPattern.step (b, t)).isEmpty) = true ↔
        b = true ∧ (t = "all".data ∨ t = "one".data ∨ t = "quorum".data) := by
    intro b t
    rw [← exists_mem_step_anchored "all".data "one".data "quorum".data b t]
    show (!(policyPattern.step (b, t)).isEmpty) = true ↔ ∃ p, p ∈ policyPattern.step (b, t)
    cases policyPattern.step (b, t) with
    | nil => simp
    | cons x xs => simp
  induction s with
  | nil => intro b; simp only [Regexp.matchFrom]; exact key b []
  | cons c cs ih =>
    intro b
    simp only [Regexp.matchFrom, Bool.or_eq_true, key, ih]
    simp

/-- The text of a string decides the string. -/
theorem string_eq_of_data_eq (a b : String) (h : a.data = b.data) : a = b := by
  cases a; cases b; simp_all

theorem MatchString_policyPattern (v : String) :
    policyPattern.MatchString v = true ↔ v = "all" ∨ v = "one" ∨ v = "quorum" := by
  unfold Regexp.MatchString
  rw [matchFrom_policyPattern]
  constructor
  · rintro ⟨-, h | h | h⟩
    · exact Or.inl (string_eq_of_data_eq _ _ h)
    · exact Or.inr (Or.inl (string_eq_of_data_eq _ _ h))
    · exact Or.inr (Or.inr (string_eq_of_data_eq _ _ h))
  · rintro (rfl | rfl | rfl)
    · exact ⟨rfl, Or.inl rfl⟩
    · exact ⟨rfl, Or.inr (Or.inl rfl)⟩
    · exact ⟨rfl, Or.inr (Or.inr rfl)⟩

/-! ## Lemmas on the operations and on the loops -/

theorem MonitoringJobCreate_failure (conv : ErrorConverter) (d : ResourceData)
    (client : Client) (j j' : Job) (resp : Option Response) (err : GoError)
    (hj : resourceDataToMonitoringJob Job.zero d = .ok j)
    (hc : client.Create j = (j', resp, some err)) :
    MonitoringJobCreate conv d client = .ok (d, conv resp (some err)) := by
  unfold MonitoringJobCreate
  rw [hj]
  simp only [hc]

theorem MonitoringJobUpdate_failure (conv : ErrorConverter) (d : ResourceData)
    (client : Client) (j j' : Job) (resp : Option Response) (err : GoError)
    (hj : resourceDataToMonitoringJob { Job.zero with ID := d.id } d = .ok j)
    (hc : client.Update j = (j', resp, some err)) :
    MonitoringJobUpdate conv d client = .ok (d, conv resp (some err)) := by
  unfold MonitoringJobUpdate
  rw [hj]
  simp only [hc]

theorem MonitoringJobUpdate_success (conv : ErrorConverter) (d : ResourceData)
    (client : Client) (j j' : Job) (resp : Option Response)
    (hj : resourceDataToMonitoringJob { Job.zero with ID := d.id } d = .ok j)
    (hc : client.Update j = (j', resp, none)) :
    MonitoringJobUpdate conv d client =
      match monitoringJobToResourceData d j' with
      | .ok d => .ok (d, none)
      | .error e => .error e := by
  unfold MonitoringJobUpdate
  rw [hj]
  simp only [hc]

theorem GoMap.get_of_mem {V : Type} (m : GoMap V) (k : String) (v : V)
    (hwf : GoMap.WF m) (h : (k, v) ∈ m) : GoMap.get m k = some v := by
  induction m with
  | nil => simp at h
  | cons e m ih =>
    obtain ⟨k₀, v₀⟩ := e
    have hnot : k₀ ∉ GoMap.keys m := (List.nodup_cons.mp hwf).1
    have hrest : GoMap.WF m := (List.nodup_cons.mp hwf).2
    rcases List.mem_cons.mp h with heq | hm
    · simp only [Prod.mk.injEq] at heq
      obtain ⟨rfl, rfl⟩ := heq
      simp [GoMap.get]
    · have hne : ¬ k₀ = k := by
        rintro rfl
        exact hnot (List.mem_map.mpr ⟨(k₀, v), hm, rfl⟩)
      simp only [GoMap.get, hne, if_false]
      exact ih hrest hm

theorem domainConfigLoop_WF (cfg : GoMap String) :
    ∀ acc : GoMap Dyn, GoMap.WF acc → GoMap.WF (domainConfigLoop cfg acc) := by
  induction cfg with
  | nil => intro acc h; exact h
  | cons e rest ih =>
    obtain ⟨k₀, v₀⟩ := e
    intro acc h
    unfold domainConfigLoop
    split
    · split
      · exact ih _ (GoMap.set_WF acc k₀ _ h)
      · exact ih _ h
    · split
      · exact ih _ (GoMap.set_WF acc k₀ _ h)
      · exact ih _ (GoMap.set_WF acc k₀ _ h)

theorem domainRulesLoop_nonNil (rawRules : List RuleData) :
    RulesNonNil (domainRulesLoop rawRules) := by
  intro x hx
  simp only [domainRulesLoop, List.mem_map] at hx
  obtain ⟨rule, -, rfl⟩ := hx
  simp

/-! ## The claims -/

/-- C1: the declared rules `[{value "42"}, {value "abc"}]` are translated by
`resourceDataToMonitoringJob` into rules whose `Value` is the text `"42"` and the text
`"abc"`: the value `"42"` is a valid base-10 integer (`Atoi` returns `42` without error) and
is not turned into the integer `42`. -/
theorem C1_numeric_rule_value_stays_text :
    Atoi "42" = (42, none) ∧
    ∃ j, resourceDataToMonitoringJob Job.zero twoRulesState = .ok j ∧
      j.Rules = [some { Key := "rtt", Value := .str "42", Comparison := ">=" },
                 some { Key := "output", Value := .str "abc", Comparison := "==" }] := by
  refine ⟨by decide, _, rfl, rfl⟩

/-- C3: when the remote `Get` fails, `MonitoringJobRead` returns without panic; if the error
text contains `unknown monitoring job` it returns no error and the identifier is empty (every
other field is as before); if the error text does not contain it, it returns the converted
error, which is not `nil` when the converter maps an error to an error, and leaves the state,
identifier included, as it was. -/
theorem C3_read_classifies_errors (ConvertToNs1Error : ErrorConverter) (d : ResourceData)
    (client : Client) (j : Option Job) (resp : Option Response) (err : GoError)
    (hconv : ∀ resp e, ConvertToNs1Error resp (some e) ≠ none)
    (hget : client.Get d.id = (j, resp, some err)) :
    ((∃ pre post, err.text.data = pre ++ "unknown monitoring job".data ++ post) →
      MonitoringJobRead ConvertToNs1Error d client = .ok ({ d with id := "" }, none)) ∧
    ((¬ ∃ pre post, err.text.data = pre ++ "unknown monitoring job".data ++ post) →
      ∃ e, MonitoringJobRead ConvertToNs1Error d client = .ok (d, some e)) := by
  unfold MonitoringJobRead
  rw [hget]
  constructor
  · intro h
    have hc : stringsContains err.text "unknown monitoring job" = true :=
      (containsChars_iff _ _).mpr h
    simp only [hc, if_true]
  · intro h
    have hc : ¬ stringsContains err.text "unknown monitoring job" = true :=
      fun hc => h ((containsChars_iff _ _).mp hc)
    simp only [hc, if_false]
    cases he : ConvertToNs1Error resp (some err) with
    | none => exact absurd he (hconv resp err)
    | some e => exact ⟨e, rfl⟩

/-- C3 at a tracked state: a client whose `Get` fails with a text that contains the marker
leaves the state without identifier and no error; one whose `Get` fails with the text
`timeout` gives the error back and leaves the state as it was. -/
theorem C3_read_classifies_errors_witness :
    MonitoringJobRead keepError trackedState
        (failingClient "GET /monitoring/jobs: 404 unknown monitoring job")
      = .ok ({ trackedState with id := "" }, none) ∧
    ∃ e, MonitoringJobRead keepError trackedState (failingClient "timeout")
      = .ok (trackedState, some e) :=
  ⟨(C3_read_classifies_errors keepError trackedState
      (failingClient "GET /monitoring/jobs: 404 unknown monitoring job") none none
      ⟨"GET /monitoring/jobs: 404 unknown monitoring job"⟩
      (by intro resp e; simp [keepError]) rfl).1
      ((containsChars_iff _ _).mp (by decide)),
   (C3_read_classifies_errors keepError trackedState (failingClient "timeout") none none
      ⟨"timeout"⟩ (by intro resp e; simp [keepError]) rfl).2
      (fun h => absurd ((containsChars_iff _ _).mpr h) (by decide))⟩

/-- C4: `MonitoringJobDelete` returns without panic whatever the remote delete call returns,
and the identifier of the state is then the empty string. -/
theorem C4_delete_clears_identifier (ConvertToNs1Error : ErrorConverter) (d : ResourceData)
    (client : Client) :
    ∃ d' e, MonitoringJobDelete ConvertToNs1Error d client = .ok (d', e) ∧ d'.id = "" ∧
      e = ConvertToNs1Error (client.Delete d.id).1 (client.Delete d.id).2 := by
  unfold MonitoringJobDelete
  exact ⟨_, _, rfl, rfl, rfl⟩

/-- C5: for a non-empty region list, `monitoringJobToResourceData` stores the domain regions
sorted, the stored list a permutation of the domain list, whenever it returns, and it returns
when the boolean keys hold booleans and no rule pointer is nil; `resourceDataToMonitoringJob`
always returns, with the declared regions sorted and a permutation of the declared list; and
a declared list of one element is returned as it is. -/
theorem C5_regions_sorted (regions : List String) (hne : regions ≠ []) :
    (∀ d r d', r.Regions = regions → monitoringJobToResourceData d r = .ok d' →
      d'.regions.Sorted (· ≤ ·) ∧ d'.regions.Perm regions) ∧
    (∀ d r, r.Regions = regions → BoolKeysTyped r.Config → RulesNonNil r.Rules →
      ∃ d', monitoringJobToResourceData d r = .ok d') ∧
    (∀ r d, d.regions = regions →
      ∃ j, resourceDataToMonitoringJob r d = .ok j ∧
        j.Regions.Sorted (· ≤ ·) ∧ j.Regions.Perm regions) ∧
    (∀ r d x, d.regions = [x] →
      ∃ j, resourceDataToMonitoringJob r d = .ok j ∧ j.Regions = [x]) := by
  have hpos : regions.length > 0 := List.length_pos.mpr hne
  refine ⟨?_, ?_, ?_, ?_⟩
  · intro d r d' hr h
    obtain ⟨-, -, hreg⟩ := monitoringJobToResourceData_ok d d' r h
    rw [hr] at hreg
    simp only [hpos, if_true] at hreg
    rw [hreg]
    exact ⟨sortStrings_sorted regions, sortStrings_perm regions⟩
  · intro d r _ hty hnn
    exact (monitoringJobToResourceData_ok_iff d r).mpr ⟨hty, hnn⟩
  · intro r d hd
    obtain ⟨j, hj, -, hreg, -⟩ := resourceDataToMonitoringJob_ok r d
    refine ⟨j, hj, ?_⟩
    rw [hreg, hd]
    split
    · exact ⟨sortStrings_sorted regions, sortStrings_perm regions⟩
    · rename_i hlen
      cases regions with
      | nil => exact absurd rfl hne
      | cons x xs =>
        cases xs with
        | nil => exact ⟨List.sorted_singleton x, List.Perm.refl _⟩
        | cons y ys => simp at hlen
  · intro r d x hd
    obtain ⟨j, hj, -, hreg, -⟩ := resourceDataToMonitoringJob_ok r d
    refine ⟨j, hj, ?_⟩
    rw [hreg, hd]
    simp

/-- C5 at the region list `was`, `lga`, `ams`. -/
theorem C5_regions_sorted_witness :
    (∃ d', monitoringJobToResourceData check1State unsortedJob = .ok d' ∧
      d'.regions = ["ams", "lga", "was"]) ∧
    (∃ j, resourceDataToMonitoringJob Job.zero
          { check1State with regions := ["was", "lga", "ams"] } = .ok j ∧
      j.Regions = ["ams", "lga", "was"]) ∧
    (∀ d', monitoringJobToResourceData check1State unsortedJob = .ok d' →
      d'.regions.Sorted (· ≤ ·) ∧ d'.regions.Perm ["was", "lga", "ams"]) :=
  ⟨⟨_, rfl, by decide⟩, ⟨_, rfl, by decide⟩,
    fun d' h => (C5_regions_sorted ["was", "lga", "ams"] (by decide)).1
      check1State unsortedJob d' rfl h⟩

/-- C6 (as stated, refuted): a domain record with an empty `Regions` list, written by
`monitoringJobToResourceData` over a state that lists `lga` and `was`, leaves a state whose
regions are still `lga` and `was`. -/
theorem C6_empty_domain_regions_keep_prior_regions :
    Job.zero.Regions = [] ∧
    ∃ d', monitoringJobToResourceData check1State Job.zero = .ok d' ∧
      d'.regions = ["lga", "was"] :=
  ⟨rfl, _, rfl, rfl⟩

/-- C6 (amended): a declared state with an empty regions list gives a domain record with an
empty `Regions` list; a domain record with an empty `Regions` list leaves the regions of the
state record as they were before the call, so the list is empty when it was empty before. -/
theorem C6_empty_regions (d : ResourceData) (r : Job) :
    (d.regions = [] →
      ∃ j, resourceDataToMonitoringJob r d = .ok j ∧ j.Regions = []) ∧
    (r.Regions = [] →
      (∀ d', monitoringJobToResourceData d r = .ok d' → d'.regions = d.regions) ∧
      (BoolKeysTyped r.Config → RulesNonNil r.Rules →
        ∃ d', monitoringJobToResourceData d r = .ok d' ∧ d'.regions = d.regions)) := by
  constructor
  · intro hd
    obtain ⟨j, hj, -, hreg, -⟩ := resourceDataToMonitoringJob_ok r d
    exact ⟨j, hj, by rw [hreg, hd]; rfl⟩
  · intro hr
    have key : ∀ d', monitoringJobToResourceData d r = .ok d' → d'.regions = d.regions := by
      intro d' h
      obtain ⟨-, -, hreg⟩ := monitoringJobToResourceData_ok d d' r h
      rw [hreg, hr]; rfl
    refine ⟨key, fun hty hnn => ?_⟩
    obtain ⟨d', hd'⟩ := (monitoringJobToResourceData_ok_iff d r).mpr ⟨hty, hnn⟩
    exact ⟨d', hd', key d' hd'⟩

/-- C6 (amended) at a state without regions and the zero domain record, which has none
either: both directions give an empty list. -/
theorem C6_empty_regions_witness :
    (∃ j, resourceDataToMonitoringJob Job.zero noRegionsState = .ok j ∧ j.Regions = []) ∧
    (∃ d', monitoringJobToResourceData noRegionsState Job.zero = .ok d' ∧ d'.regions = []) :=
  ⟨(C6_empty_regions noRegionsState Job.zero).1 rfl,
    ((C6_empty_regions noRegionsState Job.zero).2 rfl).2 (by decide) (by decide)⟩

/-- C7: when `monitoringJobToResourceData` returns, a boolean `b` under `ssl` is in the flat
config as `"1"` or `"0"`, and a boolean `b` under `follow_redirect`, `ipv6`,
`tls_skip_verify` or `tls_add_verify` as `"true"` or `"false"`; and it does return when the
boolean keys hold booleans and no rule pointer is nil. -/
theorem C7_boolean_encoding (d : ResourceData) (r : Job) (hwf : GoMap.WF r.Config) :
    (∀ d', monitoringJobToResourceData d r = .ok d' →
      (∀ b, GoMap.get r.Config "ssl" = some (.bool b) →
        GoMap.get d'.config "ssl" = some (if b then "1" else "0")) ∧
      (∀ k, k = "follow_redirect" ∨ k = "ipv6" ∨ k = "tls_skip_verify"
          ∨ k = "tls_add_verify" →
        ∀ b, GoMap.get r.Config k = some (.bool b) →
          GoMap.get d'.config k = some (if b then "true" else "false"))) ∧
    (BoolKeysTyped r.Config → RulesNonNil r.Rules →
      ∃ d', monitoringJobToResourceData d r = .ok d') := by
  refine ⟨fun d' h => ?_, fun hty hnn => (monitoringJobToResourceData_ok_iff d r).mpr ⟨hty, hnn⟩⟩
  obtain ⟨hcfg, -, -⟩ := monitoringJobToResourceData_ok d d' r h
  have hflat := stateConfigLoop_get r.Config [] d'.config hwf hcfg
  constructor
  · intro b hb
    rw [hflat "ssl", hb]
    simp [flatEntry]
  · intro k hk b hb
    have hs : k ≠ "ssl" := by
      rcases hk with rfl | rfl | rfl | rfl <;> decide
    rw [hflat k, hb]
    simp [flatEntry, hs, hk]

/-- C7 at a record with `ssl` true and `ipv6` false. -/
theorem C7_boolean_encoding_witness :
    ∃ d', monitoringJobToResourceData check1State unsortedJob = .ok d' ∧
      GoMap.get d'.config "ssl" = some "1" ∧ GoMap.get d'.config "ipv6" = some "false" := by
  have h := C7_boolean_encoding check1State unsortedJob (by decide)
  obtain ⟨d', hd'⟩ := h.2 (by decide) (by decide)
  exact ⟨d', hd', (h.1 d' hd').1 true (by decide),
    (h.1 d' hd').2 "ipv6" (by decide) false (by decide)⟩

/-- C9: `resourceDataToMonitoringJob` returns, whatever the record it is given held before,
a record with `RegionScope` equal to `"fixed"` and with `ID`, `Name`, `Type`, `Active`,
`Mute`, `Frequency`, `RapidRecheck` and `Policy` equal to `id`, `name`, `job_type`, `active`,
`mute`, `frequency`, `rapid_recheck` and `policy` of the state; for a state with name
`check1`, job type `tcp`, regions `lga`, `was`, frequency `60`, config `{"ssl": "1"}` and
policy `quorum` the record has `Name` `check1`, `Type` `tcp`, `Regions` `lga`, `was`,
`Frequency` `60`, `Config` `{"ssl": true}`, `Policy` `quorum` and `RegionScope` `fixed`. -/
theorem C9_fixed_scope_and_copies (r : Job) (d : ResourceData) :
    ∃ j, resourceDataToMonitoringJob r d = .ok j ∧
      j.RegionScope = "fixed" ∧ j.ID = d.id ∧ j.Name = d.name ∧ j.Type_ = d.job_type ∧
      j.Active = d.active ∧ j.Mute = d.mute ∧ j.Frequency = d.frequency ∧
      j.RapidRecheck = d.rapid_recheck ∧ j.Policy = d.policy ∧
      (d.name = "check1" → d.job_type = "tcp" → d.regions = ["lga", "was"] →
        d.frequency = 60 → d.config = [("ssl", "1")] → d.policy = "quorum" →
        j.Name = "check1" ∧ j.Type_ = "tcp" ∧ j.Regions = ["lga", "was"] ∧
        j.Frequency = 60 ∧ j.Config = [("ssl", .bool true)] ∧ j.Policy = "quorum" ∧
        j.RegionScope = "fixed") := by
  simp only [resourceDataToMonitoringJob, domainRulesParseLoop]
  refine ⟨_, rfl, rfl, rfl, rfl, rfl, rfl, rfl, rfl, rfl, rfl, ?_⟩
  intro h1 h2 h3 h4 h5 h6
  refine ⟨h1, h2, ?_, h4, ?_, h6, rfl⟩
  · show (if d.regions.length > 1 then sortStrings d.regions else d.regions) = ["lga", "was"]
    rw [h3]; decide
  · show domainConfigLoop d.config [] = [("ssl", .bool true)]
    rw [h5]; decide

/-- C9 at the state of the scenario and the zero domain record. -/
theorem C9_fixed_scope_and_copies_witness :
    ∃ j, resourceDataToMonitoringJob Job.zero check1State = .ok j ∧
      j.Name = "check1" ∧ j.Type_ = "tcp" ∧ j.Regions = ["lga", "was"] ∧
      j.Frequency = 60 ∧ j.Config = [("ssl", .bool true)] ∧ j.Policy = "quorum" ∧
      j.RegionScope = "fixed" := by
  obtain ⟨j, hj, _, _, _, _, _, _, _, _, _, h⟩ := C9_fixed_scope_and_copies Job.zero check1State
  exact ⟨j, hj, h rfl rfl rfl rfl rfl rfl⟩

/-- C10 (as stated, refuted): on a domain record whose config holds the string `"yes"` under
`ssl`, `monitoringJobToResourceData` panics. -/
theorem C10_text_under_ssl_panics :
    monitoringJobToResourceData check1State sslTextJob
      = .error "interface conversion: interface \x7b\x7d is not bool" := by
  rfl

/-- C10 (amended): `monitoringJobToResourceData` returns (without error, its `error` result
being `nil`) exactly when every value under the five boolean keys is a boolean and no rule
pointer is nil; when it returns, a value under any other key whose dynamic type is neither
string nor `float64` is left out of the flat config. -/
theorem C10_returns_iff_boolean_keys_typed (d : ResourceData) (r : Job) :
    ((∃ d', monitoringJobToResourceData d r = .ok d') ↔
      BoolKeysTyped r.Config ∧ RulesNonNil r.Rules) ∧
    (GoMap.WF r.Config → ∀ d', monitoringJobToResourceData d r = .ok d' →
      ∀ k v, ¬ boolKey k → GoMap.get r.Config k = some v →
        (∀ s, v ≠ .str s) → (∀ f, v ≠ .float f) → GoMap.get d'.config k = none) := by
  refine ⟨monitoringJobToResourceData_ok_iff d r, fun hwf d' h k v hb hv hns hnf => ?_⟩
  obtain ⟨hcfg, -, -⟩ := monitoringJobToResourceData_ok d d' r h
  have hflat := stateConfigLoop_get r.Config [] d'.config hwf hcfg
  have hb' := hb
  unfold boolKey at hb'
  simp only [not_or] at hb'
  rw [hflat k, hv]
  simp only [flatEntry, hb'.1, hb'.2, if_false, false_or]
  cases v with
  | str s => exact absurd rfl (hns s)
  | float f => exact absurd rfl (hnf f)
  | bool b => rfl
  | int i => rfl
  | other => rfl

/-- C10 (amended) at a record with booleans under `ssl` and `ipv6` and at one with a boolean
and an integer under other keys: the call returns, and the two values have no flat entry. -/
theorem C10_returns_iff_boolean_keys_typed_witness :
    (∃ d', monitoringJobToResourceData check1State unsortedJob = .ok d') ∧
    (∃ d', monitoringJobToResourceData check1State mixedJob = .ok d' ∧
      GoMap.get d'.config "verbose" = none ∧ GoMap.get d'.config "port" = none) := by
  refine ⟨(C10_returns_iff_boolean_keys_typed check1State unsortedJob).1.mpr
    ⟨by decide, by decide⟩, ?_⟩
  have h := C10_returns_iff_boolean_keys_typed check1State mixedJob
  obtain ⟨d', hd'⟩ := h.1.mpr ⟨by decide, by decide⟩
  exact ⟨d', hd',
    h.2 (by decide) d' hd' "verbose" (.bool true) (by decide) (by decide)
      (fun s => by simp) (fun f => by simp),
    h.2 (by decide) d' hd' "port" (.int 443) (by decide) (by decide)
      (fun s => by simp) (fun f => by simp)⟩

/-- C11: the `ValidateFunc` of `policy` returns no error exactly for the values `all`, `one`
and `quorum`; for every other value, among them the empty string, `Quorum`, `quorum`
followed by a newline and ` all`, it returns one error. -/
theorem C11_policy_validator_accepts_three_literals (quote : String → String)
    (v k : String) :
    ((policyValidateFunc quote v k).2 = [] ↔ v = "all" ∨ v = "one" ∨ v = "quorum") ∧
    ((policyValidateFunc quote v k).2 ≠ [] →
      (policyValidateFunc quote v k).2
        = [⟨"only all, one, quorum allowed in " ++ quote k⟩]) ∧
    (policyValidateFunc quote "" k).2 ≠ [] ∧
    (policyValidateFunc quote "Quorum" k).2 ≠ [] ∧
    (policyValidateFunc quote "quorum\n" k).2 ≠ [] ∧
    (policyValidateFunc quote " all" k).2 ≠ [] ∧
    (policyValidateFunc quote "all" k).2 = [] := by
  have main : ∀ w : String,
      (policyValidateFunc quote w k).2 = [] ↔ w = "all" ∨ w = "one" ∨ w = "quorum" := by
    intro w
    unfold policyValidateFunc
    by_cases h : policyPattern.MatchString w = true
    · simp only [h, Bool.not_true, Bool.false_eq_true, if_false, true_iff]
      exact (MatchString_policyPattern w).mp h
    · have h' : policyPattern.MatchString w = false := by simpa using h
      simp only [h', Bool.not_false, if_true, List.cons_ne_nil, false_iff, reduceCtorEq]
      exact fun hw => h ((MatchString_policyPattern w).mpr hw)
  refine ⟨main v, ?_, ?_, ?_, ?_, ?_, ?_⟩
  · intro h
    unfold policyValidateFunc at h ⊢
    by_cases hm : policyPattern.MatchString v = true
    · simp [hm] at h
    · simp [hm]
  · rw [Ne, main]; decide
  · rw [Ne, main]; decide
  · rw [Ne, main]; decide
  · rw [Ne, main]; decide
  · rw [main]; decide

/-- C12: when the remote create call (the remote update call) returns an error,
`MonitoringJobCreate` (`MonitoringJobUpdate`) returns without panic the converted error,
which is not `nil` when the converter maps an error to an error, and the state record,
identifier included, is as it was before the call. -/
theorem C12_create_update_keep_state_on_failure (ConvertToNs1Error : ErrorConverter)
    (d : ResourceData) (client : Client)
    (hconv : ∀ resp e, ConvertToNs1Error resp (some e) ≠ none) :
    (∃ j, resourceDataToMonitoringJob Job.zero d = .ok j ∧
      ((client.Create j).2.2 ≠ none →
        ∃ e, MonitoringJobCreate ConvertToNs1Error d client = .ok (d, some e))) ∧
    (∃ j, resourceDataToMonitoringJob { Job.zero with ID := d.id } d = .ok j ∧
      ((client.Update j).2.2 ≠ none →
        ∃ e, MonitoringJobUpdate ConvertToNs1Error d client = .ok (d, some e))) := by
  constructor
  · obtain ⟨j, hj, -⟩ := resourceDataToMonitoringJob_ok Job.zero d
    refine ⟨j, hj, fun herr => ?_⟩
    rcases hc : client.Create j with ⟨j', resp, err⟩
    rw [hc] at herr
    cases err with
    | none => exact absurd rfl herr
    | some err =>
      rw [MonitoringJobCreate_failure ConvertToNs1Error d client j j' resp err hj hc]
      cases he : ConvertToNs1Error resp (some err) with
      | none => exact absurd he (hconv resp err)
      | some e => exact ⟨e, rfl⟩
  · obtain ⟨j, hj, -⟩ := resourceDataToMonitoringJob_ok { Job.zero with ID := d.id } d
    refine ⟨j, hj, fun herr => ?_⟩
    rcases hc : client.Update j with ⟨j', resp, err⟩
    rw [hc] at herr
    cases err with
    | none => exact absurd rfl herr
    | some err =>
      rw [MonitoringJobUpdate_failure ConvertToNs1Error d client j j' resp err hj hc]
      cases he : ConvertToNs1Error resp (some err) with
      | none => exact absurd he (hconv resp err)
      | some e => exact ⟨e, rfl⟩

/-- C12 at a tracked state and a client whose calls fail with the text `timeout`. -/
theorem C12_create_update_keep_state_on_failure_witness :
    (∃ e, MonitoringJobCreate keepError trackedState (failingClient "timeout")
      = .ok (trackedState, some e)) ∧
    (∃ e, MonitoringJobUpdate keepError trackedState (failingClient "timeout")
      = .ok (trackedState, some e)) := by
  have h := C12_create_update_keep_state_on_failure keepError trackedState
    (failingClient "timeout") (by intro resp e; simp [keepError])
  obtain ⟨⟨j₁, -, h₁⟩, ⟨j₂, -, h₂⟩⟩ := h
  exact ⟨h₁ (by simp [failingClient]), h₂ (by simp [failingClient])⟩

/-- C13 (as stated, refuted): a state with the identifier `52a27d4397d5f07003fdbe7b`,
updated through a client whose `Update` succeeds and leaves the identifier `other` in the
job, has the identifier `other` afterwards. -/
theorem C13_update_takes_identifier_from_answer :
    trackedState.id = "52a27d4397d5f07003fdbe7b" ∧
    ∃ d', MonitoringJobUpdate keepError trackedState (answeringClient "other") = .ok (d', none)
      ∧ d'.id = "other" :=
  ⟨rfl, _, rfl, rfl⟩

/-- C13 (amended): `MonitoringJobUpdate` sends a job whose `ID` is the identifier of the
state; after a successful remote update the identifier of the state is the `ID` of the job
as the remote call left it, whenever the function returns, and it returns when the job the
remote call left holds booleans under the boolean keys and no nil rule pointer; so the
identifier is the one before the call when the remote call leaves the `ID` as it was. -/
theorem C13_update_identifier_is_answered_id (ConvertToNs1Error : ErrorConverter)
    (d : ResourceData) (client : Client) :
    (∃ j, resourceDataToMonitoringJob { Job.zero with ID := d.id } d = .ok j) ∧
    ∀ j, resourceDataToMonitoringJob { Job.zero with ID := d.id } d = .ok j →
      j.ID = d.id ∧
      ((client.Update j).2.2 = none →
        (∀ d' e, MonitoringJobUpdate ConvertToNs1Error d client = .ok (d', e) →
          e = none ∧ d'.id = (client.Update j).1.ID ∧
          ((client.Update j).1.ID = j.ID → d'.id = d.id)) ∧
        (BoolKeysTyped (client.Update j).1.Config → RulesNonNil (client.Update j).1.Rules →
          ∃ d', MonitoringJobUpdate ConvertToNs1Error d client = .ok (d', none))) := by
  refine ⟨(resourceDataToMonitoringJob_ok _ d).imp fun j h => h.1, fun j hj => ?_⟩
  have hid : j.ID = d.id := by
    have h := hj
    simp only [resourceDataToMonitoringJob, domainRulesParseLoop, Except.ok.injEq] at h
    rw [← h]
  refine ⟨hid, fun hok => ?_⟩
  rcases hc : client.Update j with ⟨j', resp, err⟩
  rw [hc] at hok
  simp only at hok
  subst hok
  rw [MonitoringJobUpdate_success ConvertToNs1Error d client j j' resp hj hc]
  constructor
  · intro d' e h
    cases ht : monitoringJobToResourceData d j' with
    | error x => rw [ht] at h; cases h
    | ok d₁ =>
      rw [ht] at h
      simp only [Except.ok.injEq, Prod.mk.injEq] at h
      obtain ⟨rfl, rfl⟩ := h
      obtain ⟨-, hid', -⟩ := monitoringJobToResourceData_ok d d₁ j' ht
      exact ⟨rfl, hid', fun hsame => by rw [hid', hsame, hid]⟩
  · intro hty hnn
    obtain ⟨d', hd'⟩ := (monitoringJobToResourceData_ok_iff d j').mpr ⟨hty, hnn⟩
    exact ⟨d', by rw [hd']⟩

/-- C13 (amended) at a tracked state and a client that answers with the same identifier:
the identifier is the one before the call. -/
theorem C13_update_identifier_is_answered_id_witness :
    ∃ d', MonitoringJobUpdate keepError trackedState
        (answeringClient "52a27d4397d5f07003fdbe7b") = .ok (d', none) ∧
      d'.id = trackedState.id := by
  obtain ⟨-, h⟩ := ((C13_update_identifier_is_answered_id keepError trackedState
    (answeringClient "52a27d4397d5f07003fdbe7b")).2 _ rfl)
  obtain ⟨h₁, h₂⟩ := h rfl
  obtain ⟨d', hd'⟩ := h₂ (by decide) (by decide)
  exact ⟨d', hd', (h₁ d' none hd').2.2 rfl⟩

/-- C14: `resourceDataToMonitoringJob` returns a domain config in which a boolean key present
in the flat config is `true` exactly when the flat text is `1` or `true`, and has no entry
for any other flat text, `0` and `false` included. -/
theorem C14_boolean_keys_true_or_absent (r : Job) (d : ResourceData)
    (hwf : GoMap.WF d.config) :
    ∃ j, resourceDataToMonitoringJob r d = .ok j ∧
      ∀ k v, boolKey k → GoMap.get d.config k = some v →
        (GoMap.get j.Config k = some (.bool true) ↔ (v = "1" ∨ v = "true")) ∧
        (¬ (v = "1" ∨ v = "true") → GoMap.get j.Config k = none) := by
  obtain ⟨j, hj, hjc, -, -⟩ := resourceDataToMonitoringJob_ok r d
  refine ⟨j, hj, fun k v hb hk => ?_⟩
  have h := domainConfigLoop_get d.config [] hwf k
  rw [hk] at h
  simp only [hb, if_true, GoMap.get] at h
  rw [hjc, h]
  by_cases hv : v = "1" ∨ v = "true"
  · simp [hv]
  · simp [hv]

/-- C14 at a state with the boolean keys spelled `1`, `true`, `false`, `0` and `yes`. -/
theorem C14_boolean_keys_true_or_absent_witness :
    ∃ j, resourceDataToMonitoringJob Job.zero mixedConfigState = .ok j ∧
      GoMap.get j.Config "ssl" = some (.bool true) ∧
      GoMap.get j.Config "ipv6" = some (.bool true) ∧
      GoMap.get j.Config "follow_redirect" = none ∧
      GoMap.get j.Config "tls_skip_verify" = none ∧
      GoMap.get j.Config "tls_add_verify" = none := by
  obtain ⟨j, hj, h⟩ := C14_boolean_keys_true_or_absent Job.zero mixedConfigState (by decide)
  exact ⟨j, hj,
    (h "ssl" "1" (by decide) (by decide)).1.mpr (by decide),
    (h "ipv6" "true" (by decide) (by decide)).1.mpr (by decide),
    (h "follow_redirect" "false" (by decide) (by decide)).2 (by decide),
    (h "tls_skip_verify" "0" (by decide) (by decide)).2 (by decide),
    (h "tls_add_verify" "yes" (by decide) (by decide)).2 (by decide)⟩

/-- C15: `resourceDataToMonitoringJob` returns a domain config in which every flat key that
is not a boolean key is present, with the integer `strconv.Atoi` reads from the flat text
when `Atoi` returns no error and with the flat text itself otherwise. -/
theorem C15_other_keys_integer_or_text (r : Job) (d : ResourceData)
    (hwf : GoMap.WF d.config) :
    ∃ j, resourceDataToMonitoringJob r d = .ok j ∧
      ∀ k v, ¬ boolKey k → GoMap.get d.config k = some v →
        ((Atoi v).2 = none → GoMap.get j.Config k = some (.int (Atoi v).1)) ∧
        ((Atoi v).2 ≠ none → GoMap.get j.Config k = some (.str v)) ∧
        (GoMap.get j.Config k).isSome = true := by
  obtain ⟨j, hj, hjc, -, -⟩ := resourceDataToMonitoringJob_ok r d
  refine ⟨j, hj, fun k v hb hk => ?_⟩
  have h := domainConfigLoop_get d.config [] hwf k
  rw [hk] at h
  simp only [hb, if_false] at h
  rw [hjc, h]
  by_cases ha : (Atoi v).2 = none
  · simp [ha]
  · simp [ha]

/-- C15 at a state with the texts `443`, `-007`, `+5`, `example.com` and `3.5` under keys
that are not boolean keys. -/
theorem C15_other_keys_integer_or_text_witness :
    ∃ j, resourceDataToMonitoringJob Job.zero mixedConfigState = .ok j ∧
      GoMap.get j.Config "port" = some (.int 443) ∧
      GoMap.get j.Config "offset" = some (.int (-7)) ∧
      GoMap.get j.Config "gain" = some (.int 5) ∧
      GoMap.get j.Config "host" = some (.str "example.com") ∧
      GoMap.get j.Config "threshold" = some (.str "3.5") := by
  obtain ⟨j, hj, h⟩ := C15_other_keys_integer_or_text Job.zero mixedConfigState (by decide)
  exact ⟨j, hj,
    (h "port" "443" (by decide) (by decide)).1 (by decide),
    (h "offset" "-007" (by decide) (by decide)).1 (by decide),
    (h "gain" "+5" (by decide) (by decide)).1 (by decide),
    (h "host" "example.com" (by decide) (by decide)).2.1 (by decide),
    (h "threshold" "3.5" (by decide) (by decide)).2.1 (by decide)⟩

/-- C16: for a declared rules list, `resourceDataToMonitoringJob` returns a `Rules` slice of
the same length whose element at each index is a rule with the `Comparison` and the `Key` of
the declared rule at that index. -/
theorem C16_rule_shape_preserved (r : Job) (d : ResourceData) (rules : List RuleData)
    (hrules : d.rules = some rules) :
    ∃ j, resourceDataToMonitoringJob r d = .ok j ∧
      j.Rules.length = rules.length ∧
      ∀ (i : Nat) (hi : i < rules.length),
        ∃ rule, j.Rules.get? i = some (some rule) ∧
          rule.Comparison = (rules.get ⟨i, hi⟩).comparison ∧
          rule.Key = (rules.get ⟨i, hi⟩).key := by
  obtain ⟨j, hj, -, -, hjr⟩ := resourceDataToMonitoringJob_ok r d
  rw [hrules] at hjr
  simp only at hjr
  refine ⟨j, hj, by rw [hjr]; simp [domainRulesLoop], fun i hi => ?_⟩
  refine ⟨{ Value := .str (rules.get ⟨i, hi⟩).value,
            Comparison := (rules.get ⟨i, hi⟩).comparison,
            Key := (rules.get ⟨i, hi⟩).key }, ?_, rfl, rfl⟩
  rw [hjr]
  simp [domainRulesLoop, List.getElem?_eq_getElem hi]

/-- C16 at a state with two declared rules, one with a numeric and one with a plain text. -/
theorem C16_rule_shape_preserved_witness :
    ∃ j, resourceDataToMonitoringJob Job.zero twoRulesState = .ok j ∧
      j.Rules.length = 2 ∧
      (∃ rule, j.Rules.get? 0 = some (some rule) ∧ rule.Comparison = ">=" ∧ rule.Key = "rtt") ∧
      (∃ rule, j.Rules.get? 1 = some (some rule) ∧ rule.Comparison = "==" ∧
        rule.Key = "output") := by
  obtain ⟨j, hj, hlen, h⟩ := C16_rule_shape_preserved Job.zero twoRulesState _ rfl
  exact ⟨j, hj, hlen, h 0 (by decide), h 1 (by decide)⟩

/-- C18: `resourceDataToMonitoringJob` returns without panic for every state and every
record; the loop that holds the write `r.Rules[i].Value = i` ranges over a nil slice, so the
`Rules` slice is the one the first loop built, with no write at any parsed index. -/
theorem C18_rules_never_indexed_out_of_range (r : Job) (d : ResourceData) :
    ∃ j, resourceDataToMonitoringJob r d = .ok j ∧
      j.Rules = (match d.rules with
                 | some rawRules => domainRulesLoop rawRules
                 | none => []) ∧
      ∀ rules, domainRulesParseLoop [] 0 rules = .ok rules := by
  obtain ⟨j, hj, -, -, hjr⟩ := resourceDataToMonitoringJob_ok r d
  exact ⟨j, hj, hjr, fun rules => rfl⟩

/-- C18 at a state with the single rule of value `5`: the call returns, the rule keeps its
slot; the body of the second loop, run on that rule, would write at index `5` of a slice of
length `1`. -/
theorem C18_rules_never_indexed_out_of_range_witness :
    (∃ j, resourceDataToMonitoringJob Job.zero ruleFiveState = .ok j ∧
      j.Rules = [some { Key := "rtt", Value := .str "5", Comparison := ">=" }]) ∧
    domainRulesParseLoop [{ value := "5", comparison := ">=", key := "rtt" }] 0
        (domainRulesLoop [{ value := "5", comparison := ">=", key := "rtt" }])
      = .error "index out of range" := by
  obtain ⟨j, hj, hjr, -⟩ := C18_rules_never_indexed_out_of_range Job.zero ruleFiveState
  exact ⟨⟨j, hj, hjr⟩, rfl⟩

/-- C19: for a declared state whose config has no repeated key, has `1` under `ssl` and
`true` under each other boolean key that is present, and under every other key a text for
which `strconv.Atoi` returns an error, `resourceDataToMonitoringJob` followed by
`monitoringJobToResourceData` returns a state whose flat config has the same value under
every key and no other key. -/
theorem C19_flat_config_does_not_drift (r : Job) (d d₀ : ResourceData)
    (hwf : GoMap.WF d.config)
    (hssl : ∀ v, GoMap.get d.config "ssl" = some v → v = "1")
    (hbool : ∀ k v, boolKey k → k ≠ "ssl" → GoMap.get d.config k = some v → v = "true")
    (htext : ∀ k v, ¬ boolKey k → GoMap.get d.config k = some v → (Atoi v).2 ≠ none) :
    ∃ j d', resourceDataToMonitoringJob r d = .ok j ∧
      monitoringJobToResourceData d₀ j = .ok d' ∧
      ∀ k, GoMap.get d'.config k = GoMap.get d.config k := by
  obtain ⟨j, hj, hjc, -, hjr⟩ := resourceDataToMonitoringJob_ok r d
  have hdom := domainConfigLoop_get d.config [] hwf
  have hjwf : GoMap.WF j.Config := by
    rw [hjc]; exact domainConfigLoop_WF d.config [] List.nodup_nil
  have hval : ∀ k, GoMap.get j.Config k =
      match GoMap.get d.config k with
      | some v => if boolKey k then some (.bool true) else some (.str v)
      | none => none := by
    intro k
    rw [hjc, hdom k]
    cases hk : GoMap.get d.config k with
    | none => rfl
    | some v =>
      by_cases hb : boolKey k
      · have hv : v = "1" ∨ v = "true" := by
          by_cases hs : k = "ssl"
          · subst hs; exact Or.inl (hssl v hk)
          · exact Or.inr (hbool k v hb hs hk)
        simp [hb, hv]
      · simp [hb, htext k v hb hk]
  have hty : BoolKeysTyped j.Config := by
    intro kv hkv hb
    have hg := GoMap.get_of_mem j.Config kv.1 kv.2 hjwf hkv
    rw [hval kv.1] at hg
    cases hk : GoMap.get d.config kv.1 with
    | none => rw [hk] at hg; cases hg
    | some v =>
      rw [hk] at hg
      simp only [hb, if_true, Option.some.injEq] at hg
      rw [← hg]; rfl
  have hnn : RulesNonNil j.Rules := by
    rw [hjr]
    cases d.rules with
    | none => intro x hx; simp at hx
    | some rs => exact domainRulesLoop_nonNil rs
  obtain ⟨d', hd'⟩ := (monitoringJobToResourceData_ok_iff d₀ j).mpr ⟨hty, hnn⟩
  obtain ⟨hcfg, -, -⟩ := monitoringJobToResourceData_ok d₀ d' j hd'
  have hflat := stateConfigLoop_get j.Config [] d'.config hjwf hcfg
  refine ⟨j, d', hj, hd', fun k => ?_⟩
  rw [hflat k, hval k]
  cases hk : GoMap.get d.config k with
  | none => rfl
  | some v =>
    by_cases hb : boolKey k
    · by_cases hs : k = "ssl"
      · subst hs
        have := hssl v hk
        subst this
        simp [flatEntry, boolKey]
      · have hv := hbool k v hb hs hk
        subst hv
        have hb' := hb
        unfold boolKey at hb'
        have h4 := hb'.resolve_left hs
        simp [flatEntry, hb, hs, h4]
    · have hb' := hb
      unfold boolKey at hb'
      simp only [not_or] at hb'
      simp [flatEntry, hb, hb'.1, hb'.2]

/-- C19 at a state with `ssl = "1"`, `ipv6 = "true"` and three plain texts. -/
theorem C19_flat_config_does_not_drift_witness :
    ∃ j d', resourceDataToMonitoringJob Job.zero stableConfigState = .ok j ∧
      monitoringJobToResourceData check1State j = .ok d' ∧
      ∀ k, GoMap.get d'.config k = GoMap.get stableConfigState.config k :=
  C19_flat_config_does_not_drift Job.zero stableConfigState check1State (by decide)
    (by intro v h; simp [stableConfigState, GoMap.get] at h; exact h.symm)
    (by
      intro k v hb hs h
      unfold boolKey at hb
      rcases hb with rfl | rfl | rfl | rfl | rfl
      · exact absurd rfl hs
      · simp [stableConfigState, GoMap.get] at h
      · simp [stableConfigState, GoMap.get] at h; exact h.symm
      · simp [stableConfigState, GoMap.get] at h
      · simp [stableConfigState, GoMap.get] at h)
    (by
      intro k v hb h
      have hm := GoMap.mem_of_get _ _ _ h
      simp only [stableConfigState, List.mem_cons, Prod.mk.injEq, List.mem_nil_iff,
        or_false] at hm
      rcases hm with ⟨rfl, rfl⟩ | ⟨rfl, rfl⟩ | ⟨rfl, rfl⟩ | ⟨rfl, rfl⟩ | ⟨rfl, rfl⟩
      · exact absurd (by decide) hb
      · exact absurd (by decide) hb
      · decide
      · decide
      · decide)

end NS1
